import Mathlib

/-!
Verification of the `multitask_torch` repository (files `network_torch.py` and
`statespace.py`) against its natural-language specification.

Real-valued tensor computations are embedded over `ℝ` as lists / lists of
lists (row-major matrices), machine-checked shapes and all.  Fallible
operations (shape-checked `matmul`, unguarded division) return `Option`.
Exceptions raised by the Python code (`ValueError`, `NotImplementedError`)
are embedded as `Except String`.
-/

open Real

namespace MultitaskTorch

/-- Row-major matrix over the reals: a list of rows. -/
abbrev Mat := List (List ℝ)

/-- Number of columns of a row-major matrix (length of its first row;
matches numpy for rectangular matrices with at least one row). -/
def colCount (m : Mat) : ℕ := (m.headD []).length

/-- The numpy `.shape` of a rectangular row-major matrix. -/
def matShape (m : Mat) : ℕ × ℕ := (m.length, colCount m)

/-- numpy transpose `m.T` of a rectangular row-major matrix: row `i` of the
transpose is column `i` of `m`. -/
def transposeM (m : Mat) : Mat :=
  (List.range (colCount m)).map fun i => m.map fun row => row.getD i 0

/-- Dot product of two equal-length vectors. -/
def dotL (v w : List ℝ) : ℝ := (List.zipWith (· * ·) v w).sum

/-- `torch.matmul(v, W)` for a 1-D `v` and 2-D `W`: defined exactly when the
length of `v` equals the number of rows of `W` (otherwise torch raises a
shape error, embedded as `none`). -/
def matVecMul (v : List ℝ) (W : Mat) : Option (List ℝ) :=
  if v.length = W.length then
    some ((List.range (colCount W)).map fun j => dotL v (W.map fun row => row.getD j 0))
  else none

/-- Elementwise addition of two tensors of identical shape (torch raises a
broadcast error on a length mismatch, embedded as `none`). -/
def addVec (v w : List ℝ) : Option (List ℝ) :=
  if v.length = w.length then some (List.zipWith (· + ·) v w) else none

/-- `c * np.eye(n)`: the `n × n` diagonal matrix with `c` on the diagonal. -/
def scalarEye (c : ℝ) (n : ℕ) : Mat :=
  (List.range n).map fun i => (List.range n).map fun j => if i = j then c else 0

/-- `np.sum(y * f, axis=-1)` for equal-length `y` and `f`. -/
def mulSum (y f : List ℝ) : ℝ := (List.zipWith (· * ·) y f).sum

/-- `np.arange(0, 2*np.pi, 2*np.pi/n)` (resp. `torch.arange`): the `n`
preferred directions `j * (2*pi/n)`, `j = 0, …, n-1`. -/
noncomputable def prefs (n : ℕ) : List ℝ :=
  (List.range n).map fun j => (j : ℝ) * (2 * π / n)

/-- Division, made explicitly partial: the Python sources divide with no
guard, so the computation is well-defined only when the divisor is nonzero;
a zero divisor is embedded as `none`. -/
noncomputable def safeDiv (a b : ℝ) : Option ℝ :=
  if b = 0 then none else some (a / b)

/-- `atan2(y, x)` (numpy `arctan2` / torch `atan2`), as the argument of the
complex number `x + y*i`; its values lie in `(-π, π]`. -/
noncomputable def atan2 (y x : ℝ) : ℝ := Complex.arg (x + y * Complex.I)

/-- `np.mod(a, 2*np.pi)`: numpy's floored modulo with positive modulus,
`a - 2π*⌊a/(2π)⌋`, whose values lie in `[0, 2π)`. -/
noncomputable def mod2pi (a : ℝ) : ℝ := a - 2 * π * ⌊a / (2 * π)⌋

/-- Truncation toward zero, as used by C-style `fmod`. -/
noncomputable def truncR (x : ℝ) : ℤ := if 0 ≤ x then ⌊x⌋ else ⌈x⌉

/-- `torch.fmod(a, m)`: C-style remainder `a - m * trunc(a/m)`, which keeps
the sign of the dividend `a`. -/
noncomputable def fmodR (a m : ℝ) : ℝ := a - m * truncR (a / m)

/-- Embedding of `popvec` (network_torch.py, lines 19-35), per batch row:
preferred directions `pref`, `temp_sum = y.sum(axis=-1)`,
`temp_cos = np.sum(y*np.cos(pref))/temp_sum`,
`temp_sin = np.sum(y*np.sin(pref))/temp_sum`,
`loc = np.arctan2(temp_sin, temp_cos)`, result `np.mod(loc, 2*np.pi)`. -/
noncomputable def popvec (y : List ℝ) : Option ℝ := do
  let pref := prefs y.length
  let temp_sum := y.sum
  let temp_cos ← safeDiv (mulSum y (pref.map Real.cos)) temp_sum
  let temp_sin ← safeDiv (mulSum y (pref.map Real.sin)) temp_sum
  let loc := atan2 temp_sin temp_cos
  return mod2pi loc

/-- Embedding of `torch_popvec` (network_torch.py, lines 38-48), per batch
row (the `keepdim=True` trailing dimension of size 1 is dropped): identical
to `popvec` except that the final reduction is `torch.fmod(loc, 2*np.pi)`
instead of `np.mod(loc, 2*np.pi)`. -/
noncomputable def torch_popvec (y : List ℝ) : Option ℝ := do
  let pref := prefs y.length
  let temp_sum := y.sum
  let temp_cos ← safeDiv (mulSum y (pref.map Real.cos)) temp_sum
  let temp_sin ← safeDiv (mulSum y (pref.map Real.sin)) temp_sum
  let loc := atan2 temp_sin temp_cos
  return fmodR loc (2 * π)

/-! ## LeakyRNNCell (network_torch.py, lines 87-165) -/

/-- The five activation names accepted by `LeakyRNNCell.__init__`. -/
inductive Activ | softplus | tanh | relu | power | retanh
  deriving DecidableEq

/-- The activation functions selected in `LeakyRNNCell.__init__`
(`F.softplus`, `torch.tanh`, `F.relu`, squared relu, relu then tanh). -/
noncomputable def actFn : Activ → ℝ → ℝ
  | .softplus => fun x => Real.log (1 + Real.exp x)
  | .tanh => Real.tanh
  | .relu => fun x => max 0 x
  | .power => fun x => (max 0 x) ^ 2
  | .retanh => fun x => Real.tanh (max 0 x)

/-- `self._w_in_start` as set by each activation branch of
`LeakyRNNCell.__init__`. -/
def wInStart : Activ → ℝ
  | _ => 1

/-- `self._w_rec_start` as set by each activation branch of
`LeakyRNNCell.__init__`. -/
def wRecStart : Activ → ℝ
  | .softplus => 0.5
  | .tanh => 1.0
  | .relu => 0.5
  | .power => 0.01
  | .retanh => 0.5

/-- The activation-name dispatch of `LeakyRNNCell.__init__` (lines 97-118):
the five recognised names select an activation, anything else raises
`ValueError('Unknown activation')`. -/
def activDispatch (s : String) : Except String Activ :=
  if s = "softplus" then .ok .softplus
  else if s = "tanh" then .ok .tanh
  else if s = "relu" then .ok .relu
  else if s = "power" then .ok .power
  else if s = "retanh" then .ok .retanh
  else .error "Unknown activation"

/-- The recurrent-weight initialisation schemes of `LeakyRNNCell.__init__`. -/
inductive WRecInit | diag | randortho | randgauss
  deriving DecidableEq

/-- The state of a constructed `LeakyRNNCell`: sizes, leak factor `alpha`,
noise scale `sigma`, activation, combined weight parameter and bias. -/
structure CellP where
  inputSize : ℕ
  hiddenSize : ℕ
  alpha : ℝ
  sigma : ℝ
  act : Activ
  weight : Mat
  bias : List ℝ

/-- Embedding of `LeakyRNNCell.__init__` (lines 88-136).  The rng draws
`rng.randn(input_size, hidden_size)` (for `w_in0`) and, for the random
recurrent initialisations, `gen_ortho_matrix` / `rng.randn(h, h)` are passed
in as the arguments `randIn` / `randRec`.  `sigma = sqrt(2/alpha)*sigma_rec`,
`w_in0 = randIn/sqrt(input_size) * w_in_start`,
`w_rec0` per `w_rec_init`, `matrix0 = concat(w_in0, w_rec0, axis=0)`,
`weight = matrix0.T`, `bias = zeros(hidden_size)`. -/
noncomputable def leakyRNNCellInit (inputSize hiddenSize : ℕ) (alpha sigma_rec : ℝ)
    (act : Activ) (wri : WRecInit) (randIn randRec : Mat) : CellP :=
  let sigma := Real.sqrt (2 / alpha) * sigma_rec
  let w_in0 := randIn.map fun row =>
    row.map fun v => v / Real.sqrt inputSize * wInStart act
  let w_rec0 :=
    match wri with
    | .diag => scalarEye (wRecStart act) hiddenSize
    | .randortho => randRec.map fun row => row.map fun v => wRecStart act * v
    | .randgauss => randRec.map fun row =>
        row.map fun v => wRecStart act * v / Real.sqrt hiddenSize
  let matrix0 := w_in0 ++ w_rec0
  { inputSize := inputSize, hiddenSize := hiddenSize, alpha := alpha,
    sigma := sigma, act := act,
    weight := transposeM matrix0,
    bias := List.replicate hiddenSize 0 }

/-- Scale state and output by `(1-alpha)` and `alpha` and add
(`output = (1 - self.alpha) * state + self.alpha * output`); the addition
requires matching shapes. -/
def combineLeak (alpha : ℝ) (state output : List ℝ) : Option (List ℝ) :=
  addVec (state.map fun s => (1 - alpha) * s) (output.map fun o => alpha * o)

/-- Embedding of `LeakyRNNCell.forward` (lines 147-165) on a single
(unbatched) input/state pair.  `noiseDraw` is the `torch.randn_like(state)`
sample, so the injected noise is `noiseDraw * sigma` (identically zero when
`sigma = 0`).  The docstring of the source states
`output = new_state = act(W * input + U * state + B)`. -/
noncomputable def leakyRNNCellForward (c : CellP) (inputs state noiseDraw : List ℝ) :
    Option (List ℝ × List ℝ) := do
  let mult_out ← matVecMul (inputs ++ state) c.weight
  let gate_inputs ← addVec mult_out c.bias
  let gate_inputs ← addVec gate_inputs (noiseDraw.map fun z => z * c.sigma)
  let output := gate_inputs.map (actFn c.act)
  let output ← combineLeak c.alpha state output
  return (output, output)

/-! ## Model fused build (network_torch.py, lines 342-405) -/

/-- The four RNN cell types accepted by `Model._build_fused`. -/
inductive RnnKind | leakyRNN | leakyGRU | lstm | gru
  deriving DecidableEq

/-- The `rnn_type` dispatch of `Model._build_fused` (lines 357-369): the
four recognised names, anything else raises
`NotImplementedError("rnn_type must be one of LeakyRNN, LeakyGRU, LSTM, GRU")`. -/
def rnnTypeDispatch (rt : String) : Except String RnnKind :=
  if rt = "LeakyRNN" then .ok .leakyRNN
  else if rt = "LeakyGRU" then .ok .leakyGRU
  else if rt = "LSTM" then .ok .lstm
  else if rt = "GRU" then .ok .gru
  else .error "rnn_type must be one of LeakyRNN, LeakyGRU, LSTM, GRU"

/-- Python `str((a, b))` for a shape tuple. -/
def shapeStr (p : ℕ × ℕ) : String :=
  "(" ++ toString p.1 ++ ", " ++ toString p.2 ++ ")"

/-- Embedding of `Model._set_weights_fused` (lines 373-405): from the RNN
cell's combined weight parameter `rnnW` it slices
`w_rec = param[n_input:, :]` and `w_in = param[:n_input, :]`; `w_out` is the
output layer's weight parameter `outW`; then the three shape checks run in
source order, raising `ValueError` on the first mismatch. -/
def setWeightsFused (n_input n_rnn n_output : ℕ) (rnnW outW : Mat) :
    Except String Unit :=
  let w_rec := rnnW.drop n_input
  let w_in := rnnW.take n_input
  let w_out := outW
  if matShape w_out ≠ (n_rnn, n_output) then
    .error ("Shape of w_out should be " ++ shapeStr (n_rnn, n_output) ++
      ", but found " ++ shapeStr (matShape w_out))
  else if matShape w_rec ≠ (n_rnn, n_rnn) then
    .error ("Shape of w_rec should be " ++ shapeStr (n_rnn, n_rnn) ++
      ", but found " ++ shapeStr (matShape w_rec))
  else if matShape w_in ≠ (n_input, n_rnn) then
    .error ("Shape of w_in should be " ++ shapeStr (n_input, n_rnn) ++
      ", but found " ++ shapeStr (matShape w_in))
  else .ok ()

/-- `nn.Linear(inF, outF).weight` has shape `(out_features, in_features)`;
`outLinearWeight` is an arbitrary weight matrix of that shape, modelled as a
zero matrix of shape `(outF, inF)` (the checked property depends only on the
shape). -/
def outLinearWeight (inF outF : ℕ) : Mat :=
  (List.range outF).map fun _ => (List.range inF).map fun _ => 0

/-- The weight-shape validation `Model.__init__` performs for the fused
build with `rnn_type = 'LeakyRNN'`: the cell weight comes from
`LeakyRNNCell(n_input, n_rnn, ...)` and the output weight from
`nn.Linear(n_rnn, n_output)`, then `_set_weights_fused` checks them. -/
noncomputable def modelFusedWeightsCheck (n_input n_rnn n_output : ℕ)
    (alpha sigma_rec : ℝ) (act : Activ) (wri : WRecInit) (randIn randRec : Mat) :
    Except String Unit :=
  let cell := leakyRNNCellInit n_input n_rnn alpha sigma_rec act wri randIn randRec
  setWeightsFused n_input n_rnn n_output cell.weight (outLinearWeight n_rnn n_output)

/-! ## Model hyperparameter resolution (network_torch.py, lines 282-288) -/

/-- The persisted hyperparameter configuration: a string-keyed mapping.
Only the presence of a configuration matters to the claim, so it is kept
abstract as a list of string keys paired with string-rendered values. -/
abbrev HP := List (String × String)

/-- Modelled from the spec: `tools.load_hp` (the `tools` module is not part
of the two source files) reads the hyperparameter configuration persisted
under `model_dir`, returning nothing when no configuration is found there.
It is kept abstract as a function from the directory to an optional
configuration. -/
abbrev LoadHP := String → Option HP

/-- Embedding of the hp-resolution step of `Model.__init__` (lines 285-288):
with `hp = None` the configuration is loaded from storage and a `ValueError`
naming the `model_dir` is raised when none is found; a provided `hp` is used
as is. -/
def resolveHp (load : LoadHP) (model_dir : String) (hp : Option HP) :
    Except String HP :=
  match hp with
  | none =>
    match load model_dir with
    | none => .error ("No hp found for model_dir " ++ model_dir)
    | some h => .ok h
  | some h => .ok h

/-! ## Model.lesion_units (network_torch.py, lines 544-573)

The lesioning logic only rearranges and zeroes entries, so it is embedded
over `ℚ` to keep everything decidable. -/

/-- Rational row-major matrix (parameter storage for the lesioning model). -/
abbrev MatQ := List (List ℚ)

/-- `needle.isPrefixOf hay` on character lists. -/
def hasPre : List Char → List Char → Bool
  | [], _ => true
  | _ :: _, [] => false
  | a :: as, b :: bs => a == b && hasPre as bs

/-- Whether `needle` occurs as a contiguous substring of `hay`
(Python's `in` on strings). -/
def hasSub (needle : List Char) : List Char → Bool
  | [] => hasPre needle []
  | b :: bs => hasPre needle (b :: bs) || hasSub needle bs

/-- Python `sub in s` for strings. -/
def containsStr (sub s : String) : Bool := hasSub sub.toList s.toList

/-- `param.data[us, :] = 0` shifted by a starting row index `k`:
each row whose (absolute) index lies in `us` is replaced by zeros. -/
def zeroRowsGo (us : List ℕ) : ℕ → MatQ → MatQ
  | _, [] => []
  | k, r :: rs =>
    (if k ∈ us then List.replicate r.length 0 else r) :: zeroRowsGo us (k + 1) rs

/-- `param.data[us, :] = 0`: zero every row of `p` whose index is in `us`. -/
def zeroRows (p : MatQ) (us : List ℕ) : MatQ := zeroRowsGo us 0 p

/-- Embedding of `Model.lesion_units` (lines 544-573) over the model's named
parameters.  `units = None` returns immediately; otherwise for every
parameter whose name contains `'weight'`, rows `units` are zeroed when the
name contains `'output'`, else rows `n_input + units` are zeroed when the
name contains `'rnn'`. -/
def lesion_units (n_input : ℕ) (params : List (String × MatQ))
    (units : Option (List ℕ)) : List (String × MatQ) :=
  match units with
  | none => params
  | some us =>
    params.map fun p =>
      if containsStr "weight" p.1 then
        if containsStr "output" p.1 then (p.1, zeroRows p.2 us)
        else if containsStr "rnn" p.1 then
          (p.1, zeroRows p.2 (us.map fun i => n_input + i))
        else p
      else p

/-- The named parameters of the fused model, in `named_parameters()` order:
the RNN cell's weight and bias, then the output layer's weight and bias. -/
def fusedParams (A B C D : MatQ) : List (String × MatQ) :=
  [("rnn_cell.weight", A), ("rnn_cell.bias", B),
   ("output_layer.weight", C), ("output_layer.bias", D)]

/-! ## f_sub_mean (statespace.py, lines 29-35)

`f_sub_mean` mutates its argument in place, so the heap is made explicit: a
store maps array identifiers to 3-D array values, and the function returns
the updated store together with the identifier of the returned array. -/

/-- A 3-D array indexed (time, batch-condition, unit), over `ℚ`. -/
abbrev Arr3 := List (List (List ℚ))

/-- The heap of numpy arrays: array identifiers to 3-D array values. -/
abbrev Store := ℕ → Arr3

/-- `x.mean(axis=1)` for one time slice `xt` (a batch × unit block): the
per-unit mean over the batch rows. -/
def meanAxis1 (xt : List (List ℚ)) : List ℚ :=
  (List.range (xt.headD []).length).map fun u =>
    (xt.map fun row => row.getD u 0).sum / xt.length

/-- The pure content of `f_sub_mean`: subtract from every row `x[t][i]` the
per-unit mean `x.mean(axis=1)[t]`. -/
def subMeanArr (x : Arr3) : Arr3 :=
  x.map fun xt =>
    let m := meanAxis1 xt
    xt.map fun row => List.zipWith (· - ·) row m

/-- Embedding of `f_sub_mean` (statespace.py, lines 29-35): the array at
identifier `a` is updated in place (the store is written at `a`) and the
same identifier is returned. -/
def f_sub_mean (σ : Store) (a : ℕ) : Store × ℕ :=
  (Function.update σ a (subMeanArr (σ a)), a)

/-! ## Theorems -/

/-! ### Helper lemmas -/

lemma two_pi_pos : (0 : ℝ) < 2 * π := by positivity

lemma mod2pi_eq_fract (a : ℝ) : mod2pi a = 2 * π * Int.fract (a / (2 * π)) := by
  have h : (2 * π : ℝ) ≠ 0 := ne_of_gt two_pi_pos
  rw [mod2pi, Int.fract, mul_sub, mul_div_cancel₀ _ h]

lemma mod2pi_nonneg (a : ℝ) : 0 ≤ mod2pi a := by
  rw [mod2pi_eq_fract]
  exact mul_nonneg (le_of_lt two_pi_pos) (Int.fract_nonneg _)

lemma mod2pi_lt_two_pi (a : ℝ) : mod2pi a < 2 * π := by
  rw [mod2pi_eq_fract]
  calc 2 * π * Int.fract (a / (2 * π)) < 2 * π * 1 :=
        (mul_lt_mul_left two_pi_pos).2 (Int.fract_lt_one _)
    _ = 2 * π := mul_one _

lemma atan2_neg_pi_lt (y x : ℝ) : -π < atan2 y x := Complex.neg_pi_lt_arg _

lemma atan2_le_pi (y x : ℝ) : atan2 y x ≤ π := Complex.arg_le_pi _

/-- `atan2` is invariant under scaling both arguments by a positive factor
(the form in which `popvec` divides both sums by `temp_sum`). -/
lemma atan2_div_div (s c S : ℝ) (hS : 0 < S) : atan2 (s / S) (c / S) = atan2 s c := by
  unfold atan2
  have hSne : (S : ℂ) ≠ 0 := Complex.ofReal_ne_zero.2 (ne_of_gt hS)
  have h1 : ((c / S : ℝ) : ℂ) + ((s / S : ℝ) : ℂ) * Complex.I =
      ((S⁻¹ : ℝ) : ℂ) * ((c : ℂ) + (s : ℂ) * Complex.I) := by
    push_cast
    field_simp
  rw [h1, Complex.arg_real_mul _ (inv_pos.2 hS)]

lemma popvec_of_sum_ne (y : List ℝ) (h : y.sum ≠ 0) :
    popvec y = some (mod2pi (atan2
      (mulSum y ((prefs y.length).map Real.sin) / y.sum)
      (mulSum y ((prefs y.length).map Real.cos) / y.sum))) := by
  simp [popvec, safeDiv, h]

lemma torch_popvec_of_sum_ne (y : List ℝ) (h : y.sum ≠ 0) :
    torch_popvec y = some (fmodR (atan2
      (mulSum y ((prefs y.length).map Real.sin) / y.sum)
      (mulSum y ((prefs y.length).map Real.cos) / y.sum)) (2 * π)) := by
  simp [torch_popvec, safeDiv, h]

/-- `torch.fmod(b, 2π)` is the identity on `(-π, π]` (in particular on all
`atan2` outputs): the truncated quotient is zero there. -/
lemma fmodR_eq_self (b : ℝ) (h1 : -π < b) (h2 : b ≤ π) : fmodR b (2 * π) = b := by
  have hhalf : π / (2 * π) = 1 / 2 := by
    rw [div_eq_div_iff (ne_of_gt two_pi_pos) (two_ne_zero)]
    ring
  have hup : b / (2 * π) ≤ 1 / 2 := by
    rw [← hhalf]
    exact (div_le_div_iff_of_pos_right two_pi_pos).2 h2
  have hlow : -(1 / 2) < b / (2 * π) := by
    have hneg : -π / (2 * π) = -(1 / 2) := by rw [neg_div, hhalf]
    rw [← hneg]
    exact (div_lt_div_iff_of_pos_right two_pi_pos).2 (by linarith)
  have htr : truncR (b / (2 * π)) = 0 := by
    unfold truncR
    by_cases hr : 0 ≤ b / (2 * π)
    · rw [if_pos hr, Int.floor_eq_zero_iff]
      exact ⟨hr, by linarith⟩
    · rw [if_neg hr, Int.ceil_eq_zero_iff]
      exact ⟨by linarith, le_of_not_le hr⟩
  rw [fmodR, htr]
  push_cast
  ring

lemma getD_range_map {α : Type} (n : ℕ) (f : ℕ → α) (i : ℕ) (d : α) (h : i < n) :
    ((List.range n).map f).getD i d = f i := by
  rw [List.getD_eq_getElem _ _ (by simpa using h)]
  simp

lemma zeroRowsGo_getD (us : List ℕ) :
    ∀ (p : MatQ) (k r : ℕ),
      (zeroRowsGo us k p).getD r [] =
        if r < p.length then
          (if (k + r) ∈ us then List.replicate ((p.getD r []).length) 0
           else p.getD r [])
        else [] := by
  intro p
  induction p with
  | nil => intro k r; simp [zeroRowsGo]
  | cons hd tl ih =>
    intro k r
    cases r with
    | zero => simp [zeroRowsGo]
    | succ n =>
      have hk : k + (n + 1) = (k + 1) + n := by omega
      simp only [zeroRowsGo, List.getD_cons_succ, List.length_cons, ih (k + 1) n,
        Nat.add_lt_add_iff_right, hk]

lemma zeroRows_getD_mem (p : MatQ) (us : List ℕ) (r : ℕ)
    (hr : r < p.length) (hm : r ∈ us) :
    (zeroRows p us).getD r [] = List.replicate ((p.getD r []).length) 0 := by
  rw [zeroRows, zeroRowsGo_getD, if_pos hr, if_pos (by simpa using hm)]

lemma zeroRows_getD_not_mem (p : MatQ) (us : List ℕ) (r : ℕ) (hm : r ∉ us) :
    (zeroRows p us).getD r [] = p.getD r [] := by
  rw [zeroRows, zeroRowsGo_getD]
  by_cases hr : r < p.length
  · rw [if_pos hr, if_neg (by simpa using hm)]
  · rw [if_neg hr, List.getD_eq_default _ _ (le_of_not_lt hr)]

lemma colCount_eq (m : Mat) (H : ℕ) (hrows : ∀ row ∈ m, row.length = H)
    (hle : H ≤ m.length) : colCount m = H := by
  cases m with
  | nil => simp only [List.length_nil, Nat.le_zero] at hle; simp [colCount, hle]
  | cons hd tl =>
    simpa [colCount] using hrows hd (List.mem_cons_self _ _)

lemma eye_col (c : ℝ) (H i : ℕ) (hi : i < H) :
    (scalarEye c H).map (fun row => row.getD i 0) =
      (List.range H).map fun j => if j = i then c else 0 := by
  unfold scalarEye
  rw [List.map_map]
  refine List.map_congr_left fun r hr => ?_
  exact getD_range_map H _ i 0 hi

lemma eye_flip (c : ℝ) (H : ℕ) :
    (List.range H).map (fun i => (List.range H).map fun j => if j = i then c else 0) =
      scalarEye c H := by
  unfold scalarEye
  refine List.map_congr_left fun i _ => List.map_congr_left fun j _ => ?_
  by_cases h : j = i
  · subst h; simp
  · rw [if_neg h, if_neg fun hh => h hh.symm]

/-- Dropping the first `I` entries of every row of `(w ++ c*eye(H)).T`
(for `w` of shape `(I, H)`) recovers `c*eye(H)`: the recurrent block of the
transposed combined weight is the diagonal initialisation. -/
lemma transposeM_drop_eye (w : Mat) (I H : ℕ) (c : ℝ)
    (hlen : w.length = I) (hrow : ∀ row ∈ w, row.length = H) :
    (transposeM (w ++ scalarEye c H)).map (fun row => row.drop I) =
      scalarEye c H := by
  have hrows : ∀ row ∈ w ++ scalarEye c H, row.length = H := by
    intro row hm
    rcases List.mem_append.1 hm with h | h
    · exact hrow row h
    · obtain ⟨r, -, rfl⟩ := List.mem_map.1 h
      simp
  have hle : H ≤ (w ++ scalarEye c H).length := by
    simp [scalarEye, hlen]
  have hcc : colCount (w ++ scalarEye c H) = H := colCount_eq _ H hrows hle
  rw [transposeM, hcc, List.map_map]
  conv_rhs => rw [← eye_flip c H]
  refine List.map_congr_left fun i hi => ?_
  have hiH : i < H := List.mem_range.1 hi
  simp only [Function.comp_apply]
  show ((w ++ scalarEye c H).map fun row => row.getD i 0).drop I =
    (List.range H).map fun j => if j = i then c else 0
  rw [List.map_append]
  have hlw : (w.map fun row => row.getD i 0).length = I := by simp [hlen]
  rw [← hlw, List.drop_left, eye_col c H i hiH]

lemma getD_zipWith_sub (l₁ l₂ : List ℚ) (u : ℕ)
    (h₁ : u < l₁.length) (h₂ : u < l₂.length) :
    (List.zipWith (· - ·) l₁ l₂).getD u 0 = l₁.getD u 0 - l₂.getD u 0 := by
  have hz : u < (List.zipWith (· - ·) l₁ l₂).length := by
    rw [List.length_zipWith]
    omega
  rw [List.getD_eq_getElem _ _ hz, List.getD_eq_getElem _ _ h₁,
    List.getD_eq_getElem _ _ h₂, List.getElem_zipWith]

lemma sum_map_sub_const (l : List (List ℚ)) (g : List ℚ → ℚ) (c : ℚ) :
    (l.map fun row => g row - c).sum = (l.map g).sum - l.length * c := by
  induction l with
  | nil => simp
  | cons hd tl ih =>
    simp only [List.map_cons, List.sum_cons, ih, List.length_cons]
    push_cast
    ring

/-- C1: the claim states `LeakyRNNCell.forward(x, h)` returns the pair
`(h', h')` with `h' = (1-alpha)*h + alpha*f(W*[x;h] + b + eps)`, as does the
cell's own docstring.  The code instead fails: the stored combined weight is
`matrix0.T`, of shape `(hidden, input+hidden)`, while `forward` computes
`matmul([x;h], weight)`, whose inner dimensions mismatch whenever
`input_size > 0`.  At the concrete cell
`LeakyRNNCell(input_size=1, hidden_size=1, alpha=1/2, sigma_rec=0,
activation='relu', w_rec_init='diag')` with `x = [1]`, `h = [0]`, the
forward pass is a shape error (`none`), not the claimed update. -/
theorem C1_forward_shape_error :
    leakyRNNCellForward
      (leakyRNNCellInit 1 1 (1/2) 0 .relu .diag [[1]] [])
      [1] [0] [0] = none := by
  simp [leakyRNNCellForward, leakyRNNCellInit, matVecMul, transposeM, colCount,
    scalarEye, List.range_succ]

/-- C2: on a population vector whose entries sum to a positive value,
`popvec` returns `atan2(sum_j y_j*sin(pref_j), sum_j y_j*cos(pref_j))`
reduced modulo `2π` — the circular mean of the preferred directions
`pref_j = 2π*j/Units` weighted by `y` — and every returned value lies in
`[0, 2π)`. -/
theorem C2_popvec_circular_mean (y : List ℝ) (h : 0 < y.sum) :
    prefs y.length = (List.range y.length).map (fun j => 2 * π * j / y.length) ∧
    popvec y = some (mod2pi (atan2
      (mulSum y ((prefs y.length).map Real.sin))
      (mulSum y ((prefs y.length).map Real.cos)))) ∧
    ∀ v, popvec y = some v → 0 ≤ v ∧ v < 2 * π := by
  have hne : y.sum ≠ 0 := ne_of_gt h
  have he := popvec_of_sum_ne y hne
  rw [atan2_div_div _ _ _ h] at he
  refine ⟨?_, he, ?_⟩
  · unfold prefs
    refine List.map_congr_left fun j _ => ?_
    ring
  · intro v hv
    rw [he] at hv
    cases Option.some.inj hv
    exact ⟨mod2pi_nonneg _, mod2pi_lt_two_pi _⟩

/-- Witness for C2 at the concrete unimodal activity `y = [1, 0, 0, 0]`,
whose entries sum to `1 > 0`. -/
theorem C2_popvec_circular_mean_witness :
    (0 : ℝ) < ([1, 0, 0, 0] : List ℝ).sum ∧
    (prefs ([1, 0, 0, 0] : List ℝ).length =
        (List.range ([1, 0, 0, 0] : List ℝ).length).map
          (fun j => 2 * π * j / ([1, 0, 0, 0] : List ℝ).length) ∧
      popvec [1, 0, 0, 0] = some (mod2pi (atan2
        (mulSum [1, 0, 0, 0] ((prefs ([1, 0, 0, 0] : List ℝ).length).map Real.sin))
        (mulSum [1, 0, 0, 0] ((prefs ([1, 0, 0, 0] : List ℝ).length).map Real.cos)))) ∧
      ∀ v, popvec [1, 0, 0, 0] = some v → 0 ≤ v ∧ v < 2 * π) :=
  ⟨by norm_num, C2_popvec_circular_mean [1, 0, 0, 0] (by norm_num)⟩

/-- C3 counterexample: the claim states `torch_popvec` computes the same
decoded angles as `popvec` and that both return values in `[0, 2π)`.  At
`y = [0, 0, 0, 1]` (decoded angle `atan2(-1, 0) = -π/2`), `popvec` applies
`np.mod` and returns `3π/2`, while `torch_popvec` applies `torch.fmod`
(which keeps the dividend's sign) and returns `-π/2`: the two disagree, and
the torch value is negative, outside `[0, 2π)`. -/
theorem C3_counterexample :
    popvec [0, 0, 0, 1] = some (3 * π / 2) ∧
    torch_popvec [0, 0, 0, 1] = some (-(π / 2)) ∧
    ¬ (3 * π / 2 : ℝ) = -(π / 2) ∧ -(π / 2) < 0 := by
  have hsum : ([0, 0, 0, 1] : List ℝ).sum = 1 := by norm_num
  have hne : ([0, 0, 0, 1] : List ℝ).sum ≠ 0 := by rw [hsum]; norm_num
  have htc : mulSum [0, 0, 0, 1]
      ((prefs ([0, 0, 0, 1] : List ℝ).length).map Real.cos) = 0 := by
    simp [mulSum, prefs, List.range_succ]
    rw [show (3 : ℝ) * (2 * π / 4) = π + π / 2 by ring, Real.cos_add]
    simp
  have hts : mulSum [0, 0, 0, 1]
      ((prefs ([0, 0, 0, 1] : List ℝ).length).map Real.sin) = -1 := by
    simp [mulSum, prefs, List.range_succ]
    rw [show (3 : ℝ) * (2 * π / 4) = π + π / 2 by ring, Real.sin_add]
    simp
  have hatan : atan2 (-1 / 1) (0 / 1) = -(π / 2) := by
    have h : ((0 / 1 : ℝ) : ℂ) + ((-1 / 1 : ℝ) : ℂ) * Complex.I = -Complex.I := by
      push_cast
      ring
    rw [atan2, h, Complex.arg_neg_I]
  have hmod : mod2pi (-(π / 2)) = 3 * π / 2 := by
    have hq : (-(π / 2)) / (2 * π) = -(1 / 4) := by
      rw [div_eq_iff (ne_of_gt two_pi_pos)]
      ring
    have hf : ⌊(-(1 / 4) : ℝ)⌋ = -1 := by norm_num [Int.floor_eq_iff]
    rw [mod2pi, hq, hf]
    push_cast
    ring
  have hfmod : fmodR (-(π / 2)) (2 * π) = -(π / 2) := by
    refine fmodR_eq_self _ ?_ ?_ <;> nlinarith [Real.pi_pos]
  have hp := popvec_of_sum_ne [0, 0, 0, 1] hne
  rw [htc, hts, hsum, hatan, hmod] at hp
  have ht := torch_popvec_of_sum_ne [0, 0, 0, 1] hne
  rw [htc, hts, hsum, hatan, hfmod] at ht
  refine ⟨hp, ht, ?_, ?_⟩
  · intro hcontra
    nlinarith [Real.pi_pos]
  · nlinarith [Real.pi_pos]

/-- C3 amended: for every `y` with positive last-axis sum, `popvec` and
`torch_popvec` both succeed and decode the same angle up to the final
reduction: `torch_popvec` returns the raw `atan2` angle `b ∈ (-π, π]`
unchanged (`torch.fmod` keeps the dividend's sign, and `|b| < 2π`), while
`popvec` returns `np.mod(b, 2π) ∈ [0, 2π)`; the two results are thus equal
modulo `2π` but not equal in general. -/
theorem C3_popvec_refinement (y : List ℝ) (h : 0 < y.sum) :
    ∃ b, torch_popvec y = some b ∧ popvec y = some (mod2pi b) ∧
      -π < b ∧ b ≤ π ∧ 0 ≤ mod2pi b ∧ mod2pi b < 2 * π := by
  have hne : y.sum ≠ 0 := ne_of_gt h
  refine ⟨atan2 (mulSum y ((prefs y.length).map Real.sin) / y.sum)
      (mulSum y ((prefs y.length).map Real.cos) / y.sum),
    ?_, popvec_of_sum_ne y hne, atan2_neg_pi_lt _ _, atan2_le_pi _ _,
    mod2pi_nonneg _, mod2pi_lt_two_pi _⟩
  rw [torch_popvec_of_sum_ne y hne,
    fmodR_eq_self _ (atan2_neg_pi_lt _ _) (atan2_le_pi _ _)]

/-- Witness for the amended C3 at `y = [0, 0, 0, 1]`, whose entries sum to
`1 > 0`. -/
theorem C3_popvec_refinement_witness :
    (0 : ℝ) < ([0, 0, 0, 1] : List ℝ).sum ∧
    (∃ b, torch_popvec [0, 0, 0, 1] = some b ∧
      popvec [0, 0, 0, 1] = some (mod2pi b) ∧
      -π < b ∧ b ≤ π ∧ 0 ≤ mod2pi b ∧ mod2pi b < 2 * π) :=
  ⟨by norm_num, C3_popvec_refinement [0, 0, 0, 1] (by norm_num)⟩

/-- C9: `popvec` and `torch_popvec` divide by the last-axis sum with no
guard: the computation is well-defined exactly when that sum is nonzero,
and on the all-zero activity vector (here of four units) the divisor is
zero and the computation is undefined. -/
theorem C9_unguarded_division_by_sum :
    (∀ y : List ℝ, (popvec y).isSome ↔ y.sum ≠ 0) ∧
    (∀ y : List ℝ, (torch_popvec y).isSome ↔ y.sum ≠ 0) ∧
    (List.replicate 4 (0 : ℝ)).sum = 0 ∧
    popvec (List.replicate 4 (0 : ℝ)) = none ∧
    torch_popvec (List.replicate 4 (0 : ℝ)) = none := by
  have hp : ∀ y : List ℝ, (popvec y).isSome ↔ y.sum ≠ 0 := by
    intro y
    by_cases hS : y.sum = 0 <;> simp [popvec, safeDiv, hS]
  have ht : ∀ y : List ℝ, (torch_popvec y).isSome ↔ y.sum ≠ 0 := by
    intro y
    by_cases hS : y.sum = 0 <;> simp [torch_popvec, safeDiv, hS]
  have hz : (List.replicate 4 (0 : ℝ)).sum = 0 := by simp
  refine ⟨hp, ht, hz, ?_, ?_⟩
  · simp [popvec, safeDiv, hz]
  · simp [torch_popvec, safeDiv, hz]

/-- C4: the claim states that for a valid hyperparameter configuration
(e.g. `rnn_type='LeakyRNN'`, `n_input > 0`) the shape checks of
`Model._set_weights_fused` pass and construction succeeds.  The code
instead raises: with `n_input=1, n_rnn=2, n_output=3` the output layer's
weight (`nn.Linear` stores it as `(n_output, n_rnn) = (3, 2)`) fails the
`(n_rnn, n_output) = (2, 3)` check, so construction raises `ValueError`
for every such configuration. -/
theorem C4_shape_check_fails :
    modelFusedWeightsCheck 1 2 3 (1/2) 0 .relu .diag [[0, 0]] [] =
      .error "Shape of w_out should be (2, 3), but found (3, 2)" := by
  rfl

/-- C5: constructing a `LeakyRNNCell` with an activation name outside
softplus/tanh/relu/power/retanh raises `ValueError('Unknown activation')`,
and building a `Model` whose `rnn_type` is outside
LeakyRNN/LeakyGRU/LSTM/GRU raises an error naming the supported types; both
dispatches run during construction (`__init__` / `_build_fused`), before any
forward pass. -/
theorem C5_construction_validation :
    (∀ s : String, s ∉ ["softplus", "tanh", "relu", "power", "retanh"] →
      activDispatch s = .error "Unknown activation") ∧
    (∀ rt : String, rt ∉ ["LeakyRNN", "LeakyGRU", "LSTM", "GRU"] →
      rnnTypeDispatch rt =
        .error "rnn_type must be one of LeakyRNN, LeakyGRU, LSTM, GRU") := by
  constructor
  · intro s hs
    simp only [List.mem_cons, List.mem_singleton, not_or] at hs
    obtain ⟨h1, h2, h3, h4, h5, -⟩ := hs
    simp [activDispatch, h1, h2, h3, h4, h5]
  · intro rt hrt
    simp only [List.mem_cons, List.mem_singleton, not_or] at hrt
    obtain ⟨h1, h2, h3, h4, -⟩ := hrt
    simp [rnnTypeDispatch, h1, h2, h3, h4]

/-- Witness for C5 at the concrete unsupported names `'gelu'` and
`'ElmanRNN'`. -/
theorem C5_construction_validation_witness :
    (("gelu" : String) ∉ ["softplus", "tanh", "relu", "power", "retanh"] ∧
      activDispatch "gelu" = .error "Unknown activation") ∧
    (("ElmanRNN" : String) ∉ ["LeakyRNN", "LeakyGRU", "LSTM", "GRU"] ∧
      rnnTypeDispatch "ElmanRNN" =
        .error "rnn_type must be one of LeakyRNN, LeakyGRU, LSTM, GRU") :=
  ⟨⟨by decide, C5_construction_validation.1 "gelu" (by decide)⟩,
   ⟨by decide, C5_construction_validation.2 "ElmanRNN" (by decide)⟩⟩

/-- C8: with `hp = None` the configuration is loaded from the persisted
storage under `model_dir` (a missing configuration raises a `ValueError`
naming `model_dir`, a found one is used); with `hp` provided, no load
occurs — the outcome is independent of the storage contents. -/
theorem C8_hp_resolution :
    (∀ (load : LoadHP) (dir : String), load dir = none →
      resolveHp load dir none = .error ("No hp found for model_dir " ++ dir)) ∧
    (∀ (load : LoadHP) (dir : String) (h : HP), load dir = some h →
      resolveHp load dir none = .ok h) ∧
    (∀ (load load' : LoadHP) (dir : String) (h : HP),
      resolveHp load dir (some h) = resolveHp load' dir (some h) ∧
        resolveHp load dir (some h) = .ok h) := by
  refine ⟨?_, ?_, ?_⟩
  · intro load dir hnone
    simp [resolveHp, hnone]
  · intro load dir h hsome
    simp [resolveHp, hsome]
  · intro load load' dir h
    exact ⟨rfl, rfl⟩

/-- Witness for C8 at a concrete empty storage, a storage containing a
configuration, and a directly provided configuration. -/
theorem C8_hp_resolution_witness :
    ((fun _ : String => (none : Option HP)) "m0" = none ∧
      resolveHp (fun _ => none) "m0" none =
        .error ("No hp found for model_dir " ++ "m0")) ∧
    ((fun _ : String => some ([("seed", "0")] : HP)) "m0" = some [("seed", "0")] ∧
      resolveHp (fun _ => some [("seed", "0")]) "m0" none = .ok [("seed", "0")]) ∧
    (resolveHp (fun _ => none) "m0" (some [("seed", "0")]) =
        resolveHp (fun _ => some [("seed", "1")]) "m0" (some [("seed", "0")]) ∧
      resolveHp (fun _ => none) "m0" (some [("seed", "0")]) = .ok [("seed", "0")]) :=
  ⟨⟨rfl, C8_hp_resolution.1 (fun _ => none) "m0" rfl⟩,
   ⟨rfl, C8_hp_resolution.2.1 (fun _ => some [("seed", "0")]) "m0" _ rfl⟩,
   C8_hp_resolution.2.2 (fun _ => none) (fun _ => some [("seed", "1")]) "m0"
     [("seed", "0")]⟩

/-- C6: `Model.lesion_units(u)` zeroes row `i` of every parameter whose
name contains both `'weight'` and `'output'` and row `n_input + i` of every
parameter whose name contains both `'weight'` and `'rnn'`, for each
`i ∈ u`; every other entry of every parameter (all biases and all
non-lesioned rows) is unchanged; the call is a no-op when `units` is
`None`.  Stated over the fused model's four named parameters. -/
theorem C6_lesion_units (n_input : ℕ) (A B C D : MatQ) (us : List ℕ)
    (hrange : ∀ i ∈ us, i < C.length ∧ n_input + i < A.length) :
    lesion_units n_input (fusedParams A B C D) none = fusedParams A B C D ∧
    lesion_units n_input (fusedParams A B C D) (some us) =
      fusedParams (zeroRows A (us.map fun i => n_input + i)) B
        (zeroRows C us) D ∧
    (∀ i ∈ us,
      (zeroRows C us).getD i [] = List.replicate ((C.getD i []).length) 0 ∧
      (zeroRows A (us.map fun i => n_input + i)).getD (n_input + i) [] =
        List.replicate ((A.getD (n_input + i) []).length) 0) ∧
    (∀ r, r ∉ us → (zeroRows C us).getD r [] = C.getD r []) ∧
    (∀ r, (∀ i ∈ us, r ≠ n_input + i) →
      (zeroRows A (us.map fun i => n_input + i)).getD r [] = A.getD r []) := by
  have hw1 : containsStr "weight" "rnn_cell.weight" = true := by decide
  have hw2 : containsStr "output" "rnn_cell.weight" = false := by decide
  have hw3 : containsStr "rnn" "rnn_cell.weight" = true := by decide
  have hb1 : containsStr "weight" "rnn_cell.bias" = false := by decide
  have ho1 : containsStr "weight" "output_layer.weight" = true := by decide
  have ho2 : containsStr "output" "output_layer.weight" = true := by decide
  have hd1 : containsStr "weight" "output_layer.bias" = false := by decide
  refine ⟨rfl, ?_, ?_, ?_, ?_⟩
  · simp [lesion_units, fusedParams, hw1, hw2, hw3, hb1, ho1, ho2, hd1]
  · intro i hi
    exact ⟨zeroRows_getD_mem C us i (hrange i hi).1 hi,
      zeroRows_getD_mem A _ (n_input + i) (hrange i hi).2
        (List.mem_map.2 ⟨i, hi, rfl⟩)⟩
  · intro r hr
    exact zeroRows_getD_not_mem C us r hr
  · intro r hr
    refine zeroRows_getD_not_mem A _ r ?_
    intro hmem
    obtain ⟨i, hi, heq⟩ := List.mem_map.1 hmem
    exact hr i hi heq.symm

/-- Witness for C6: the fused parameter list with `n_input = 1`, concrete
rational matrices, lesioning unit `0`. -/
theorem C6_lesion_units_witness :
    (∀ i ∈ [(0 : ℕ)], i < ([[8], [9]] : MatQ).length ∧
      1 + i < ([[1, 2], [3, 4], [5, 6]] : MatQ).length) ∧
    (lesion_units 1 (fusedParams [[1, 2], [3, 4], [5, 6]] [[7]] [[8], [9]] [[10]])
        none = fusedParams [[1, 2], [3, 4], [5, 6]] [[7]] [[8], [9]] [[10]] ∧
      lesion_units 1 (fusedParams [[1, 2], [3, 4], [5, 6]] [[7]] [[8], [9]] [[10]])
          (some [0]) =
        fusedParams (zeroRows [[1, 2], [3, 4], [5, 6]] ([0].map fun i => 1 + i))
          [[7]] (zeroRows [[8], [9]] [0]) [[10]] ∧
      (∀ i ∈ [(0 : ℕ)],
        (zeroRows [[8], [9]] [0]).getD i [] =
          List.replicate ((([[8], [9]] : MatQ).getD i []).length) 0 ∧
        (zeroRows [[1, 2], [3, 4], [5, 6]] ([0].map fun i => 1 + i)).getD (1 + i) [] =
          List.replicate ((([[1, 2], [3, 4], [5, 6]] : MatQ).getD (1 + i) []).length) 0) ∧
      (∀ r, r ∉ [(0 : ℕ)] →
        (zeroRows [[8], [9]] [0]).getD r [] = ([[8], [9]] : MatQ).getD r []) ∧
      (∀ r, (∀ i ∈ [(0 : ℕ)], r ≠ 1 + i) →
        (zeroRows [[1, 2], [3, 4], [5, 6]] ([0].map fun i => 1 + i)).getD r [] =
          ([[1, 2], [3, 4], [5, 6]] : MatQ).getD r [])) :=
  ⟨by decide, C6_lesion_units 1 [[1, 2], [3, 4], [5, 6]] [[7]] [[8], [9]] [[10]]
    [0] (by decide)⟩

/-- C7: with `w_rec_init = 'diag'`, the recurrent block of the initial
combined weight parameter (the entries of each weight row past the first
`input_size` columns, i.e. the transposed `w_rec0` block of `matrix0.T`)
equals `w_rec_start * eye(hidden_size)`, where `w_rec_start` is `0.5` for
softplus, relu and retanh, `1.0` for tanh, `0.01` for power; the initial
bias is the zero vector. -/
theorem C7_diag_initialization (I H : ℕ) (alpha sigma_rec : ℝ) (act : Activ)
    (randIn randRec : Mat) (hlen : randIn.length = I)
    (hrow : ∀ row ∈ randIn, row.length = H) :
    (leakyRNNCellInit I H alpha sigma_rec act .diag randIn randRec).weight.map
        (fun row => row.drop I) = scalarEye (wRecStart act) H ∧
    (leakyRNNCellInit I H alpha sigma_rec act .diag randIn randRec).bias =
      List.replicate H 0 ∧
    wRecStart .softplus = 1 / 2 ∧ wRecStart .tanh = 1 ∧
    wRecStart .relu = 1 / 2 ∧ wRecStart .power = 1 / 100 ∧
    wRecStart .retanh = 1 / 2 := by
  refine ⟨?_, rfl, by norm_num [wRecStart], by norm_num [wRecStart],
    by norm_num [wRecStart], by norm_num [wRecStart], by norm_num [wRecStart]⟩
  show (transposeM ((randIn.map fun row =>
      row.map fun v => v / Real.sqrt I * wInStart act) ++
        scalarEye (wRecStart act) H)).map (fun row => row.drop I) =
    scalarEye (wRecStart act) H
  refine transposeM_drop_eye _ I H _ (by simp [hlen]) ?_
  intro row hm
  obtain ⟨orig, horig, rfl⟩ := List.mem_map.1 hm
  simp [hrow orig horig]

/-- Witness for C7 at a concrete `1 × 2` random input draw, `relu`
activation. -/
theorem C7_diag_initialization_witness :
    (([[3, 7]] : Mat).length = 1 ∧ ∀ row ∈ ([[3, 7]] : Mat), row.length = 2) ∧
    ((leakyRNNCellInit 1 2 (1 / 2) 0 .relu .diag [[3, 7]] []).weight.map
        (fun row => row.drop 1) = scalarEye (wRecStart .relu) 2 ∧
      (leakyRNNCellInit 1 2 (1 / 2) 0 .relu .diag [[3, 7]] []).bias =
        List.replicate 2 0 ∧
      wRecStart .softplus = 1 / 2 ∧ wRecStart .tanh = 1 ∧
      wRecStart .relu = 1 / 2 ∧ wRecStart .power = 1 / 100 ∧
      wRecStart .retanh = 1 / 2) :=
  ⟨⟨by simp, by simp⟩,
    C7_diag_initialization 1 2 (1 / 2) 0 .relu [[3, 7]] [] (by simp) (by simp)⟩

/-- C10: `f_sub_mean(x)` mutates its argument in place — the store is
written at the given array identifier, every other array is untouched, and
the returned identifier is the argument's — and in the updated array the
mean over axis 1 (the batch-condition axis) of every (time, unit) slice is
zero.  Stated for arrays of shape `(T, B, U)` with `B > 0`. -/
theorem C10_f_sub_mean_in_place (σ : Store) (a : ℕ) (B U : ℕ) (hB : 0 < B)
    (hshape : ∀ xt ∈ σ a, xt.length = B ∧ ∀ row ∈ xt, row.length = U) :
    (f_sub_mean σ a).2 = a ∧
    (∀ b, b ≠ a → (f_sub_mean σ a).1 b = σ b) ∧
    (f_sub_mean σ a).1 a = subMeanArr (σ a) ∧
    ∀ xt ∈ (f_sub_mean σ a).1 a, xt.length = B ∧
      ∀ u, u < U → (xt.map fun row => row.getD u 0).sum / (xt.length : ℚ) = 0 := by
  have hupd : (f_sub_mean σ a).1 a = subMeanArr (σ a) := Function.update_same a _ σ
  refine ⟨rfl, ?_, hupd, ?_⟩
  · intro b hb
    exact Function.update_noteq hb _ _
  · intro xt' hmem
    rw [hupd] at hmem
    unfold subMeanArr at hmem
    obtain ⟨xt, hxt, rfl⟩ := List.mem_map.1 hmem
    obtain ⟨hxtB, hxtrows⟩ := hshape xt hxt
    refine ⟨by simpa using hxtB, ?_⟩
    intro u hu
    have hne : xt ≠ [] := by
      intro h
      rw [h] at hxtB
      simp at hxtB
      omega
    have hhead : (xt.headD []).length = U := by
      cases xt with
      | nil => exact absurd rfl hne
      | cons hd tl => exact hxtrows hd (List.mem_cons_self _ _)
    have hmlen : (meanAxis1 xt).length = U := by
      unfold meanAxis1
      simp only [List.length_map, List.length_range]
      exact hhead
    have hmu : (meanAxis1 xt).getD u 0 =
        (xt.map fun row => row.getD u 0).sum / (xt.length : ℚ) := by
      unfold meanAxis1
      exact getD_range_map _ _ u 0 (by rw [hhead]; exact hu)
    have hmaps : ((xt.map fun row =>
        List.zipWith (· - ·) row (meanAxis1 xt)).map fun row => row.getD u 0) =
        xt.map fun row => row.getD u 0 - (meanAxis1 xt).getD u 0 := by
      rw [List.map_map]
      refine List.map_congr_left fun row hrow => ?_
      simp only [Function.comp_apply]
      exact getD_zipWith_sub row _ u (by rw [hxtrows row hrow]; exact hu)
        (by rw [hmlen]; exact hu)
    have hQ : ((xt.length : ℚ)) ≠ 0 := by
      rw [hxtB]
      exact_mod_cast Nat.pos_iff_ne_zero.1 hB
    dsimp only
    rw [hmaps, sum_map_sub_const xt (fun row => row.getD u 0)
      ((meanAxis1 xt).getD u 0), hmu]
    rw [show (xt.map fun row => row.getD u 0).sum -
        (xt.length : ℚ) * ((xt.map fun row => row.getD u 0).sum / (xt.length : ℚ)) =
        0 from by field_simp]
    simp

/-- Witness for C10 at the one-element store holding the concrete
`1 × 2 × 1` array `[[[1], [3]]]`. -/
theorem C10_f_sub_mean_in_place_witness :
    ((0 : ℕ) < 2 ∧ ∀ xt ∈ (fun _ : ℕ => ([[[1], [3]]] : Arr3)) 0,
      xt.length = 2 ∧ ∀ row ∈ xt, row.length = 1) ∧
    ((f_sub_mean (fun _ => [[[1], [3]]]) 0).2 = 0 ∧
      (∀ b, b ≠ 0 → (f_sub_mean (fun _ => [[[1], [3]]]) 0).1 b =
        (fun _ : ℕ => ([[[1], [3]]] : Arr3)) b) ∧
      (f_sub_mean (fun _ => [[[1], [3]]]) 0).1 0 =
        subMeanArr ((fun _ : ℕ => ([[[1], [3]]] : Arr3)) 0) ∧
      ∀ xt ∈ (f_sub_mean (fun _ => [[[1], [3]]]) 0).1 0, xt.length = 2 ∧
        ∀ u, u < 1 →
          (xt.map fun row => row.getD u 0).sum / (xt.length : ℚ) = 0) :=
  ⟨⟨by decide, by decide⟩,
    C10_f_sub_mean_in_place (fun _ => [[[1], [3]]]) 0 2 1 (by decide) (by decide)⟩

end MultitaskTorch
